import Mathlib

/-!
Verification of the node-docker-toolbox wrapper: a shallow embedding of its
options-to-arguments encoder (src/util.ts, `optionsToArgs`), the line-delimited
stream decoder (`LineReadStream._read` and the `events` chunk handler), the
process facade (`_spawnDockerToolbox`), the environment parser
(`DockerMachine.env`) and the compose/machine facade plumbing
(`_serviceCommandSpawn`, `exec`, `run`, `refreshEnv`, `get`), together with
theorems settling the specification's claims about them.

JavaScript runtime values are modelled by the inductive `JsValue`; numbers are
modelled as integers (every number the library's option schemas pass through is
an integer, and `toString` on an integer agrees with JS `Number.prototype.
toString`).  Strings are Lean `String`s, ASCII where case mapping matters (the
option keys are camelCase ASCII identifiers).  Asynchronous outcomes (promise
resolution, process exit) are modelled as explicit values: a subprocess's fate
is the first settling `error`/`close` event, and a promise is an `Except`.
-/

namespace DockerToolbox

/-! JS string primitives used by the source. -/

/-- JS `\s` whitespace class (the characters `/\s/` matches). -/
def isJsWhitespace (c : Char) : Bool :=
  c == ' ' || c == '\t' || c == '\n' || c == '\r' || c == '\x0b' || c == '\x0c' ||
  c == '\u00a0' || c == '\u1680' ||
  ('\u2000' ≤ c && c ≤ '\u200a') ||
  c == '\u2028' || c == '\u2029' || c == '\u202f' || c == '\u205f' ||
  c == '\u3000' || c == '\ufeff'

/-- JS `value.search(/\s+/) > -1`: does the string contain any whitespace? -/
def hasWhitespace (s : String) : Bool :=
  s.data.any isJsWhitespace

/-- The regex class `[A-Z]` (ASCII uppercase only, as in the source's
`/([A-Z])/g`). -/
def isAsciiUpper (c : Char) : Bool :=
  'A' ≤ c && c ≤ 'Z'

/-- Concatenation of the images of a list's elements, in order. -/
def listFlat {α β : Type} (f : α → List β) : List α → List β
  | [] => []
  | a :: as => f a ++ listFlat f as

/-- JS `key.replace(/([A-Z])/g, '-$1')`: insert `-` before each ASCII
uppercase letter. -/
def jsReplaceUpperHyphen (s : String) : String :=
  ⟨listFlat (fun c => if isAsciiUpper c then ['-', c] else [c]) s.data⟩

/-- JS `toLowerCase` restricted to ASCII (the keys it is applied to are
camelCase ASCII identifiers). -/
def jsToLowerCase (s : String) : String :=
  ⟨s.data.map Char.toLower⟩

/-! The encoder's value model: the runtime kinds `optionsToArgs` inspects with
`typeof`/`Array.isArray`, as a closed inductive. `vnull` stands for the falsy
non-boolean values `null`/`undefined`. -/

inductive JsValue where
  | vbool (b : Bool)
  | vnum (n : Int)
  | vstr (s : String)
  | varr (elems : List JsValue)
  | vobj (fields : List (String × JsValue))
  | vnull

mutual
/-- Stringification of an element inside JS `Array.prototype.join` (`null` and
`undefined` render as the empty string there). -/
def jsJoinElem : JsValue → String
  | .vnull => ""
  | .vstr s => s
  | .vnum n => toString n
  | .vbool b => if b then "true" else "false"
  | .varr xs => jsJoinElemList xs
  | .vobj _ => "[object Object]"
/-- JS `array.join(',')` over the modelled values. -/
def jsJoinElemList : List JsValue → String
  | [] => ""
  | [x] => jsJoinElem x
  | x :: y :: xs => jsJoinElem x ++ "," ++ jsJoinElemList (y :: xs)
end

/-- JS template-literal stringification `${value}` (`String(value)`): like the
join rendering except that `null` renders as the text `null`. -/
def jsTemplateString : JsValue → String
  | .vnull => "null"
  | .vstr s => s
  | .vnum n => toString n
  | .vbool b => if b then "true" else "false"
  | .varr xs => jsJoinElemList xs
  | .vobj _ => "[object Object]"

/-! The argument encoder, `optionsToArgs` of src/util.ts.  A configuration
mapping is an insertion-ordered association list (JS object iteration order for
non-numeric keys); a thrown `DockerToolboxOptionsParseError` is the `.error`
case carrying the message. -/

/-- The error messages thrown by the inner (flat-mapping) validation loop. -/
def msgKeyWs : String :=
  "Options object argument key may not contain whitespace characters"

def msgValWs : String :=
  "Options object argument value may not contain whitespace characters"

def msgArrElemWs : String :=
  "Options object argument value array element may not contain whitespace characters"

def msgArrElemObj : String :=
  "Options object argument value array element may only be a string or a number"

def msgObjVal (v : JsValue) : String :=
  "Options object argument value may only be a string, number, boolean or an array containing strings, numbers and booleans. "
    ++ jsTemplateString v ++ "was received instead."

/-- The flag token: `'--' + prefix + key.replace(/([A-Z])/g, '-$1').toLowerCase()`. -/
def flagOf (pfx key : String) : String :=
  "--" ++ pfx ++ jsToLowerCase (jsReplaceUpperHyphen key)

/-- The `value.forEach` validation over an array-valued inner value: the first
thrown message, if any.  `typeof v === "object"` holds for arrays, plain
objects and `null`, so all three throw the element-type error. -/
def arrElemCheck : List JsValue → Option String
  | [] => none
  | .vstr s :: rest => if hasWhitespace s then some msgArrElemWs else arrElemCheck rest
  | .varr _ :: _ => some msgArrElemObj
  | .vobj _ :: _ => some msgArrElemObj
  | .vnull :: _ => some msgArrElemObj
  | _ :: rest => arrElemCheck rest

/-- Validation of one inner value of a flat-mapping option (string whitespace
check, array element checks, nested-object rejection); `none` means no throw. -/
def innerValueCheck : JsValue → Option String
  | .vstr s => if hasWhitespace s then some msgValWs else none
  | .varr es => arrElemCheck es
  | .vobj m => some (msgObjVal (.vobj m))
  | _ => none

/-- The inner `for(const key in optionValue)` loop of the flat-mapping branch:
per pair, validate then push `optKey` and `key=value`. -/
def encodeObjFields (optKey : String) : List (String × JsValue) → Except String (List String)
  | [] => .ok []
  | (k, v) :: rest =>
    if hasWhitespace k then .error msgKeyWs
    else
      match innerValueCheck v with
      | some msg => .error msg
      | none =>
        match encodeObjFields optKey rest with
        | .error e => .error e
        | .ok ts => .ok (optKey :: (k ++ "=" ++ jsTemplateString v) :: ts)

/-- One entry of the outer loop of `optionsToArgs`: the `typeof` chain over the
entry's value.  `vnull` reaches the final `else if(optionValue)` with a falsy
value and emits nothing. -/
def encodeEntry (pfx key : String) : JsValue → Except String (List String)
  | .vbool b => .ok (if b then [flagOf pfx key] else [])
  | .vstr s =>
    .ok [flagOf pfx key, if hasWhitespace s then "\"" ++ s ++ "\"" else s]
  | .vnum n => .ok [flagOf pfx key, toString n]
  | .varr xs => .ok [flagOf pfx key, jsJoinElemList xs]
  | .vobj fields => encodeObjFields (flagOf pfx key) fields
  | .vnull => .ok []

/-- The outer `for(let key in options)` loop: entries in iteration order, all
pushes into one array, a throw aborting the whole call. -/
def optionsToArgsGo (pfx : String) : List (String × JsValue) → Except String (List String)
  | [] => .ok []
  | (k, v) :: rest =>
    match encodeEntry pfx k v with
    | .error e => .error e
    | .ok ts =>
      match optionsToArgsGo pfx rest with
      | .error e => .error e
      | .ok tr => .ok (ts ++ tr)

/-- The optional second parameter of `optionsToArgs` (field `prefix` in the
source; renamed, `prefix` being reserved in Lean). -/
structure IOptionsToArgsParseOptions where
  pfx : Option String
deriving DecidableEq, Repr

/-- `optionsToArgs(options, parseOptions?)` of src/util.ts: `parseOptions =
parseOptions || {}`, `prefix = parseOptions.prefix || ''`, then the entry loop. -/
def optionsToArgs (options : List (String × JsValue))
    (parseOptions : Option IOptionsToArgsParseOptions) : Except String (List String) :=
  let p := match parseOptions with
    | some po => po.pfx.getD ""
    | none => ""
  optionsToArgsGo p options

/-! The process facade, `_spawnDockerToolbox` of src/index.ts.  A subprocess's
fate is the first event that settles the returned promise: the `error` event
(the process could not be started; no exit code exists yet) or the `close`
event (with the exit code, `null` when the process was killed by a signal). -/

inductive ProcessFate where
  | errorEvent (err : String)
  | closeEvent (code : Option Int) (signal : Option String)
deriving DecidableEq, Repr

/-- JS stringification of the `close` code used in the rejection message
(`null` renders as the text `null` in string concatenation). -/
def jsCodeToString : Option Int → String
  | some n => toString n
  | none => "null"

/-- The completion signal of `_spawnDockerToolbox`: reject with the spawn
error, resolve on `code === 0`, reject with
`program + ' responded with non-zero code ' + code` otherwise. -/
def completionSignal (program : String) : ProcessFate → Except String Unit
  | .errorEvent err => .error err
  | .closeEvent code _signal =>
    if code = some 0 then .ok ()
    else .error (program ++ " responded with non-zero code " ++ jsCodeToString code)

/-- A recorded subprocess invocation: program name and argument vector. -/
structure SpawnCall where
  program : String
  args : List String
deriving DecidableEq, Repr

/-- The `-f <path>` pairs `DockerCompose._spawn` prepends for its configured
compose-file paths. -/
def configFileArgs (configPaths : List String) : List String :=
  listFlat (fun p => ["-f", p]) configPaths

/-- `DockerCompose._spawn(command, args)`: `docker-compose` with the config
flags, the command, then the supplied arguments. -/
def composeSpawn (configPaths : List String) (command : String) (args : List String) : SpawnCall :=
  { program := "docker-compose"
    args := configFileArgs configPaths ++ [command] ++ args }

/-! Facade call arguments.  The overloaded `(...args: any[])` surface receives
strings (service names, commands), numbers, or an options object; `JsArg` is
that closed union. -/

inductive JsArg where
  | str (s : String)
  | num (n : Int)
  | opts (o : List (String × JsValue))

/-- Stringification a `JsArg` receives when it lands in the final argument
vector (numbers render decimally, an object as JS `String(obj)`). -/
def jsArgToString : JsArg → String
  | .str s => s
  | .num n => toString n
  | .opts _ => "[object Object]"

/-- `DockerCompose._serviceCommandSpawn(command, ...args)`: when `args[0]` is a
string the source assigns `services = args`, then `args.splice(0, 1)` and
`services = args` again, so the first string is dropped; when `args[0]` is not
a string it becomes the options object and the rest are the services.  (A
non-string, non-object `args[0]` — a number — makes `options` that number; the
`for..in` loop of `optionsToArgs` then iterates nothing, which the model
renders as the empty mapping.) -/
def serviceCommandSpawn (configPaths : List String) (command : String)
    (args : List JsArg) : Except String SpawnCall :=
  let parts : List (String × JsValue) × List JsArg :=
    match args with
    | [] => ([], [])
    | a0 :: rest =>
      ((match a0 with
        | .opts o => o
        | _ => []),
       rest)
  match optionsToArgs parts.1 none with
  | .error e => .error e
  | .ok optArgs =>
    .ok (composeSpawn configPaths command (optArgs ++ parts.2.map jsArgToString))

/-- JS truthiness of an optional property read. -/
def jsTruthy : Option JsValue → Bool
  | none => false
  | some (.vbool b) => b
  | some (.vnum n) => decide (n ≠ 0)
  | some (.vstr s) => decide (s ≠ "")
  | some (.varr _) => true
  | some (.vobj _) => true
  | some .vnull => false

/-- Property read on a modelled JS object (keys are unique in a JS object, so
first match suffices). -/
def jsLookup (key : String) : List (String × JsValue) → Option JsValue
  | [] => none
  | (k, v) :: rest => if k == key then some v else jsLookup key rest

/-- JS `delete obj[key]` on a modelled JS object. -/
def jsDeleteKey (key : String) : List (String × JsValue) → List (String × JsValue)
  | [] => []
  | (k, v) :: rest =>
    if k == key then jsDeleteKey key rest else (k, v) :: jsDeleteKey key rest

/-- JS `args[i] || ''` where the slot holds the command string (an absent slot
is `undefined`, hence `''`; a zero number is falsy, hence `''`). -/
def jsCmdOrEmpty : Option JsArg → String
  | some (.str s) => s
  | some (.num n) => if n = 0 then "" else toString n
  | some (.opts _) => "[object Object]"
  | none => ""

/-- Placeholder for the `undefined` value that becomes the lone argument when
`exec`/`run` is called with no arguments at all (the source never assigns
`command`; `spawn` would reject the vector).  Unreachable under the typed
overloads and never evaluated by a theorem below. -/
def jsUndefined : String := "undefined"

/-- `DockerCompose.exec(...)` and `DockerCompose.run(...)` share this body
(`cmdName` is `'exec'` or `'run'`): resolve the overload by `typeof args[0]`,
pull `disablePseudoTty` out as `-T` (appended after the encoded flags), encode
the remaining options, and spawn with flags, command and extra run arguments —
the parsed `service` variable is never used. -/
def execLikeSpawn (cmdName : String) (configPaths : List String)
    (args : List JsArg) : Except String SpawnCall :=
  match args with
  | [] => .ok (composeSpawn configPaths cmdName [jsUndefined])
  | a0 :: _ =>
    let parsed : List (String × JsValue) × String × List JsArg :=
      match a0 with
      | .str _ => ([], jsCmdOrEmpty (args.get? 1), args.drop 2)
      | .opts o => (o, jsCmdOrEmpty (args.get? 2), args.drop 3)
      | .num _ => ([], jsCmdOrEmpty (args.get? 2), args.drop 3)
    let options := parsed.1
    let tFlag := if jsTruthy (jsLookup "disablePseudoTty" options) then ["-T"] else []
    match optionsToArgs (jsDeleteKey "disablePseudoTty" options) none with
    | .error e => .error e
    | .ok optArgs =>
      .ok (composeSpawn configPaths cmdName
        ((optArgs ++ tFlag) ++ ([parsed.2.1] ++ parsed.2.2.map jsArgToString)))

/-! The line-delimited stream decoder, `LineReadStream._read` of src/index.ts.
The chunk handler keeps a `currentLine` buffer across chunks and runs a
do-while over each chunk; crucially the source advances with
`chunkStr = chunkStr.substr(newLineIndex)`, which keeps the newline at the
front of the remainder.  The do-while is modelled with explicit fuel: a `none`
completion means the loop had not returned after that many iterations (for
this loop, exhausting every fuel, i.e. divergence).  `this.push` is modelled
as always returning `true` (the consumer keeps reading; pushing an empty
string never fills the stream's buffer), so the detach-on-backpressure branch
is never taken. -/

/-- JS `chunkStr.indexOf('\n')` (as an index option rather than `-1`). -/
def jsIndexOfNl : List Char → Option Nat
  | [] => none
  | '\n' :: _ => some 0
  | _ :: rest => (jsIndexOfNl rest).map (· + 1)

/-- One chunk through the handler's do-while: the lines pushed, and `some
finalBuffer` if the loop returned within the fuel, `none` otherwise. -/
def lineChunkLoop : Nat → List Char → List Char → List (List Char) × Option (List Char)
  | 0, _, _ => ([], none)
  | fuel + 1, currentLine, chunkStr =>
    match jsIndexOfNl chunkStr with
    | some i =>
      let line := currentLine ++ chunkStr.take i
      let rest := chunkStr.drop i
      let step := lineChunkLoop fuel [] rest
      (line :: step.1, step.2)
    | none => ([], some (currentLine ++ chunkStr))

/-- A sequence of `data` events through one attached handler: chunks are
processed in order; a chunk on which the loop never returns blocks the
(single-threaded) event loop, so later chunks are never delivered. -/
def lineReadFeed (fuel : Nat) : List Char → List (List Char) → List (List Char) × Option (List Char)
  | currentLine, [] => ([], some currentLine)
  | currentLine, chunk :: chunks =>
    match lineChunkLoop fuel currentLine chunk with
    | (emitted, some buf) =>
      let next := lineReadFeed fuel buf chunks
      (emitted ++ next.1, next.2)
    | (emitted, none) => (emitted, none)

/-! The JSON event decoder of `DockerCompose.events`.  `JSON.parse` is an
external platform primitive; it is modelled on the subset of documents the
event stream carries (a flat object of string keys and string values, no
escape sequences, no embedded whitespace), and returns `none` — a thrown
`SyntaxError` — off that subset, in particular on the empty string and on any
text not starting with `{`. -/

/-- The content of a JSON string literal, reading after the opening quote:
returns the content and the rest after the closing quote.  Escape sequences
are outside the modelled subset. -/
def parseJsonStringLit : List Char → Option (List Char × List Char)
  | [] => none
  | '"' :: rest => some ([], rest)
  | '\\' :: _ => none
  | c :: rest =>
    match parseJsonStringLit rest with
    | some (content, r) => some (c :: content, r)
    | none => none

/-- The members of a flat JSON object, reading after the opening brace:
`"key":"value"` pairs separated by commas, up to the closing brace. -/
def parseJsonPairs : Nat → List Char → Option (List (String × String) × List Char)
  | 0, _ => none
  | fuel + 1, s =>
    match s with
    | '"' :: rest =>
      match parseJsonStringLit rest with
      | none => none
      | some (key, r1) =>
        match r1 with
        | ':' :: '"' :: r2 =>
          match parseJsonStringLit r2 with
          | none => none
          | some (val, r3) =>
            match r3 with
            | ',' :: r4 =>
              match parseJsonPairs fuel r4 with
              | none => none
              | some (pairs, r5) => some ((⟨key⟩, ⟨val⟩) :: pairs, r5)
            | '}' :: r4 => some ([(⟨key⟩, ⟨val⟩)], r4)
            | _ => none
        | _ => none
    | _ => none

/-- `JSON.parse(line)` on the modelled subset: a whole flat string-valued
object and nothing after it. -/
def jsonParseFlat (s : List Char) : Option (List (String × String)) :=
  match s with
  | '{' :: '}' :: rest => if rest.isEmpty then some [] else none
  | '{' :: rest =>
    match parseJsonPairs rest.length rest with
    | some (pairs, rest2) => if rest2.isEmpty then some pairs else none
    | none => none
  | _ => none

/-- How the events chunk handler ends on one chunk: the loop returned (with
the leftover buffer), or `JSON.parse` threw and the exception escaped the
`data` handler (it is raised inside the plain callback, not routed anywhere),
or the fuel ran out. -/
inductive EventsEnd where
  | handlerReturned (buf : List Char)
  | thrownParse (line : List Char)
  | fuelOut
deriving DecidableEq, Repr

/-- The `events` chunk handler on one chunk: the same newline loop as
`LineReadStream._read` (including the unconsumed newline), but each completed
line goes through `JSON.parse` and the record is delivered with
`eventsSubject.next`.  Returns the records delivered before the handler ended,
and how it ended. -/
def eventsChunkLoop : Nat → List Char → List Char → List (List (String × String)) × EventsEnd
  | 0, _, _ => ([], .fuelOut)
  | fuel + 1, currentLine, chunkStr =>
    match jsIndexOfNl chunkStr with
    | some i =>
      let line := currentLine ++ chunkStr.take i
      let rest := chunkStr.drop i
      match jsonParseFlat line with
      | none => ([], .thrownParse line)
      | some obj =>
        let step := eventsChunkLoop fuel [] rest
        (obj :: step.1, step.2)
    | none => ([], .handlerReturned (currentLine ++ chunkStr))

/-- How the event stream terminates for its subscribers. -/
inductive StreamTerminal where
  | completedNormally
  | erroredWith (e : String)
deriving DecidableEq, Repr

/-- The only wiring into the event stream's error channel: `events` subscribes
the subject to the spawn promise — `eventsPromise.then(complete, error)` — so a
stream error carries exactly a completion-signal failure of the
`docker-compose` subprocess. -/
def eventsTerminal (fate : ProcessFate) : StreamTerminal :=
  match completionSignal "docker-compose" fate with
  | .ok _ => .completedNormally
  | .error e => .erroredWith e

/-! The environment parser, `DockerMachine.env` of src/index.ts: split the
captured output into lines, locate the sentinel `DOCKER_MACHINE_NAME` line,
derive a regular expression from it, and apply it to every line.  The JS
string primitives it uses (`split(/\r\n|\n/)`, `indexOf`, `substr`,
`substring`) are modelled below with their exact clamping rules; the derived
regular expression `pre([a-z_]+)mid(.*?)suf$` with the `i` flag is modelled by
a specialised matcher (literal pieces matched case-insensitively, greedy
backtracking word run, lazy value, end anchor, leftmost start) — the source
interpolates the pieces unescaped, so the model, like the spec, treats their
characters as literals. -/

/-- JS `text.split(/\r\n|\n/)` (a lone `\r` does not split). -/
def splitLinesAux (acc : List Char) : List Char → List (List Char)
  | [] => [acc.reverse]
  | '\r' :: '\n' :: rest => acc.reverse :: splitLinesAux [] rest
  | '\n' :: rest => acc.reverse :: splitLinesAux [] rest
  | c :: rest => splitLinesAux (c :: acc) rest

def splitLines (s : List Char) : List (List Char) :=
  splitLinesAux [] s

/-- Does `pat` occur at the head of `s`? -/
def startsWithChars : List Char → List Char → Bool
  | [], _ => true
  | _ :: _, [] => false
  | p :: ps, c :: cs => p == c && startsWithChars ps cs

def jsIndexOfSubAux (pat : List Char) (i : Nat) : List Char → Int
  | [] => if startsWithChars pat [] then (i : Int) else -1
  | c :: rest =>
    if startsWithChars pat (c :: rest) then (i : Int)
    else jsIndexOfSubAux pat (i + 1) rest

/-- JS `s.indexOf(pat)`: first occurrence, `-1` if absent. -/
def jsIndexOfSub (s pat : List Char) : Int :=
  jsIndexOfSubAux pat 0 s

/-- JS `s.indexOf(pat) > -1`. -/
def jsContains (s pat : List Char) : Bool :=
  decide (-1 < jsIndexOfSub s pat)

/-- A JS start index: negative counts from the end (clamped at 0). -/
def jsStartIdx (len : Nat) (i : Int) : Nat :=
  if i < 0 then ((len : Int) + i).toNat else i.toNat

/-- JS `s.substr(start, length)`. -/
def jsSubstrLen (s : List Char) (start len : Int) : List Char :=
  ((s.drop (jsStartIdx s.length start)).take len.toNat)

/-- JS `s.substr(start)`. -/
def jsSubstrStart (s : List Char) (start : Int) : List Char :=
  s.drop (jsStartIdx s.length start)

/-- A JS `substring` index: clamped into `[0, len]`. -/
def jsClampIdx (len : Nat) (i : Int) : Nat :=
  if i < 0 then 0 else min i.toNat len

/-- JS `s.substring(a, b)`: clamp both indices, swap when out of order. -/
def jsSubstring (s : List Char) (a b : Int) : List Char :=
  let x := jsClampIdx s.length a
  let y := jsClampIdx s.length b
  ((s.drop (min x y)).take (max x y - min x y))

/-- Case-insensitive character comparison (the regex `i` flag, ASCII). -/
def ciCharEq (a b : Char) : Bool :=
  a.toLower == b.toLower

/-- Match a literal regex piece case-insensitively; returns the remainder. -/
def matchLitCI : List Char → List Char → Option (List Char)
  | [], s => some s
  | _ :: _, [] => none
  | p :: ps, c :: cs => if ciCharEq p c then matchLitCI ps cs else none

/-- The class `[a-z_]` under the `i` flag. -/
def isEnvWordChar (c : Char) : Bool :=
  ('a' ≤ c.toLower && c.toLower ≤ 'z') || c == '_'

/-- The lazy `(.*?)suf$` tail: the shortest value after which `suf` matches
and the line ends. -/
def lazyValSuf (suf : List Char) (acc : List Char) : List Char → Option (List Char)
  | [] =>
    match matchLitCI suf [] with
    | some [] => some acc.reverse
    | _ => none
  | c :: rest =>
    match matchLitCI suf (c :: rest) with
    | some [] => some acc.reverse
    | _ => lazyValSuf suf (c :: acc) rest

/-- Backtracking over the greedy `([a-z_]+)` group: `runRev` is the current
candidate reversed; on failure the candidate's last character is returned to
the remainder. -/
def varBacktrack (mid suf : List Char) : List Char → List Char → Option (List Char × List Char)
  | [], _ => none
  | c :: runRev, rest =>
    match matchLitCI mid rest with
    | some afterMid =>
      match lazyValSuf suf [] afterMid with
      | some val => some ((c :: runRev).reverse, val)
      | none => varBacktrack mid suf runRev (c :: rest)
    | none => varBacktrack mid suf runRev (c :: rest)

/-- Try the whole pattern `pre([a-z_]+)mid(.*?)suf$` at the start of `s`. -/
def matchEnvAt (pre mid suf s : List Char) : Option (List Char × List Char) :=
  match matchLitCI pre s with
  | none => none
  | some afterPre =>
    let wordRun := afterPre.takeWhile isEnvWordChar
    varBacktrack mid suf wordRun.reverse (afterPre.drop wordRun.length)

/-- `line.match(regExp)`: the leftmost position where the pattern matches;
the two capture groups on success. -/
def regexEnvSearch (pre mid suf : List Char) : List Char → Option (List Char × List Char)
  | [] => matchEnvAt pre mid suf []
  | c :: rest =>
    match matchEnvAt pre mid suf (c :: rest) with
    | some r => some r
    | none => regexEnvSearch pre mid suf rest

/-- Assignment `machineEnv[envVar] = envValue` on a JS object: overwrite in
place, append when new. -/
def objSet : List (String × String) → String → String → List (String × String)
  | [], k, v => [(k, v)]
  | (k2, v2) :: rest, k, v =>
    if k2 == k then (k2, v) :: rest else (k2, v2) :: objSet rest k v

/-- The sentinel variable name. -/
def dockerMachineNameVar : String := "DOCKER_MACHINE_NAME"

/-- The parsing phase of `DockerMachine.env(name)` applied to the captured
stdout text.  When no line contains the sentinel, `lines.find` yields
`undefined` and the immediately following `test.indexOf` throws a `TypeError`
inside the promise callback — the promise rejects; the model carries that
thrown error as the `.error` case. -/
def parseMachineEnvOut (name : String) (out : String) : Except String (List (String × String)) :=
  let lines := splitLines out.data
  match lines.find? (fun line => jsContains line dockerMachineNameVar.data) with
  | none => .error "TypeError: Cannot read property indexOf of undefined"
  | some test =>
    let testStartIndex := jsIndexOfSub test dockerMachineNameVar.data
    let testEndIndex := testStartIndex + (dockerMachineNameVar.length : Int)
    let nameStartIndex := jsIndexOfSub test name.data
    let nameEndIndex := nameStartIndex + (name.length : Int)
    let pre := jsSubstrLen test 0 testStartIndex
    let mid := jsSubstring test testEndIndex nameStartIndex
    let suf := jsSubstrStart test nameEndIndex
    .ok (lines.foldl
      (fun acc line =>
        match regexEnvSearch pre mid suf line with
        | some (v, val) => objSet acc ⟨v⟩ ⟨val⟩
        | none => acc)
      [])

/-- `DockerMachine.env(name)` end to end: the spawn promise must resolve
(`docker-machine env <name>` exiting 0) before the captured output is parsed;
a completion failure rejects the returned promise unparsed. -/
def dockerMachineEnv (name : String) (fate : ProcessFate) (capturedOut : String) :
    Except String (List (String × String)) :=
  match completionSignal "docker-machine" fate with
  | .error e => .error e
  | .ok _ => parseMachineEnvOut name capturedOut

/-! The host handle, class `DockerMachine`: a name and the last parsed
environment mapping. -/

structure MachineHandle where
  name : String
  env : List (String × String)
deriving DecidableEq, Repr

/-- `DockerMachine.get(name)`: construct the handle only from a successful
env query; a failure propagates and no handle exists. -/
def machineGet (name : String) (fate : ProcessFate) (out : String) : Except String MachineHandle :=
  match dockerMachineEnv name fate out with
  | .ok e => .ok { name := name, env := e }
  | .error err => .error err

/-- `DockerMachine.refreshEnv()`: `this._env = env` runs only in the
fulfilled branch of `envPromise.then`, so a failed query leaves the stored
mapping untouched while the returned promise rejects. -/
def refreshEnvUpdate (m : MachineHandle)
    (queryResult : Except String (List (String × String))) :
    Except String (List (String × String)) × MachineHandle :=
  match queryResult with
  | .ok e => (.ok e, { m with env := e })
  | .error err => (.error err, m)

/-- `refreshEnv` end to end: re-run the env query for the handle's name and
fold its outcome into the handle. -/
def refreshEnvRun (m : MachineHandle) (fate : ProcessFate) (out : String) :
    Except String (List (String × String)) × MachineHandle :=
  refreshEnvUpdate m (dockerMachineEnv m.name fate out)

/-! Theorems settling the claims. -/

/-- The key transformation as the specification words it: insert a hyphen
before each upper-case letter, then lower-case the whole key, then prepend
`--` and the prefix. -/
def specHyphenate : List Char → List Char
  | [] => []
  | c :: cs =>
    if isAsciiUpper c then '-' :: c :: specHyphenate cs
    else c :: specHyphenate cs

def flagTokenSpec (pfx key : String) : String :=
  "--" ++ pfx ++ jsToLowerCase ⟨specHyphenate key.data⟩

theorem listFlat_hyphen (l : List Char) :
    listFlat (fun c => if isAsciiUpper c then ['-', c] else [c]) l = specHyphenate l := by
  induction l with
  | nil => rfl
  | cons c cs ih =>
    simp only [listFlat, specHyphenate]
    split <;> simp [ih]

/-- C1: on a singleton configuration mapping the encoder renders each value
kind as claimed — boolean `true` emits the flag alone, a number emits the flag
and its decimal string, a string emits the flag and the value double-quoted
exactly when it contains whitespace, and a sequence emits the flag and the
comma-join of its elements with no quoting (even for whitespace-containing
elements); in particular the four concrete examples of the claim. -/
theorem optionsToArgs_singleton_value_kinds :
    (∀ k : String, optionsToArgs [(k, .vbool true)] none = .ok [flagOf "" k])
    ∧ (∀ (k : String) (n : Int),
        optionsToArgs [(k, .vnum n)] none = .ok [flagOf "" k, toString n])
    ∧ (∀ k s : String,
        optionsToArgs [(k, .vstr s)] none =
          .ok [flagOf "" k, if hasWhitespace s then "\"" ++ s ++ "\"" else s])
    ∧ (∀ (k : String) (xs : List JsValue),
        optionsToArgs [(k, .varr xs)] none = .ok [flagOf "" k, jsJoinElemList xs])
    ∧ optionsToArgs [("testOption", .vbool true)] none = .ok ["--test-option"]
    ∧ optionsToArgs [("testOption", .vnum 42)] none = .ok ["--test-option", "42"]
    ∧ optionsToArgs [("testOption", .vstr "a b")] none = .ok ["--test-option", "\"a b\""]
    ∧ optionsToArgs [("testOption", .varr [.vstr "a", .vstr "b", .vstr "c"])] none =
        .ok ["--test-option", "a,b,c"]
    ∧ optionsToArgs [("testOption", .varr [.vstr "a b", .vstr "c"])] none =
        .ok ["--test-option", "a b,c"] := by
  refine ⟨fun k => ?_, fun k n => ?_, fun k s => ?_, fun k xs => ?_, ?_, ?_, ?_, ?_, ?_⟩ <;> rfl

/-- C3: the encoder derives the flag token of every entry, under every prefix,
exactly as the specification describes (hyphen before each upper-case letter,
lower-case the whole key, prepend `--` and the prefix); in particular, with
prefix `test-prefix-` the key `testNumber` encodes to
`--test-prefix-test-number`. -/
theorem optionsToArgs_flag_token_derivation :
    (∀ pfx key : String, flagOf pfx key = flagTokenSpec pfx key)
    ∧ (∀ (pfx key : String) (n : Int),
        optionsToArgs [(key, .vnum n)] (some ⟨some pfx⟩) =
          .ok [flagTokenSpec pfx key, toString n])
    ∧ optionsToArgs [("testNumber", .vnum 10)] (some ⟨some "test-prefix-"⟩) =
        .ok ["--test-prefix-test-number", "10"] := by
  have hflag : ∀ pfx key : String, flagOf pfx key = flagTokenSpec pfx key := by
    intro pfx key
    simp [flagOf, flagTokenSpec, jsReplaceUpperHyphen, listFlat_hyphen]
  refine ⟨hflag, fun pfx key n => ?_, by rfl⟩
  simp [optionsToArgs, optionsToArgsGo, encodeEntry, hflag]

/-- C6: the process facade's completion signal resolves exactly on exit code
0, rejects any other close with the message carrying the program name and the
exit code, and rejects a spawn failure with the spawn error itself — a fate
that carries no exit code at all. -/
theorem completionSignal_exit_code_semantics :
    (∀ (p : String) (f : ProcessFate),
        completionSignal p f = .ok () ↔ ∃ sig, f = .closeEvent (some 0) sig)
    ∧ (∀ (p : String) (c : Option Int) (sig : Option String),
        completionSignal p (.closeEvent c sig) =
          if c = some 0 then .ok ()
          else .error (p ++ " responded with non-zero code " ++ jsCodeToString c))
    ∧ (∀ p e : String, completionSignal p (.errorEvent e) = .error e) := by
  refine ⟨fun p f => ?_, fun p c sig => by rfl, fun p e => by rfl⟩
  cases f with
  | errorEvent e => simp [completionSignal]
  | closeEvent c sig =>
    simp only [completionSignal]
    split
    · rename_i h
      subst h
      simp
    · rename_i h
      simp [h]

theorem map_jsArgToString_str (ss : List String) :
    List.map (jsArgToString ∘ JsArg.str) ss = ss := by
  induction ss with
  | nil => rfl
  | cons s ss ih => simp [jsArgToString, ih]

/-- C9: the generic service-command dispatcher, used by build, down, logs,
pause, ps, pull, push, restart, start, stop, top, unpause and up, drops the
first supplied service name when the call starts with a service-name string
(it is never forwarded to the subprocess), and forwards all trailing service
names when the call starts with an options mapping. -/
theorem serviceCommandSpawn_drops_first_service :
    (∀ (cps : List String) (cmd s0 : String) (ss : List String),
        serviceCommandSpawn cps cmd (.str s0 :: ss.map .str) =
          .ok (composeSpawn cps cmd ss))
    ∧ (∀ (cps : List String) (cmd : String) (o : List (String × JsValue)) (ss : List String),
        serviceCommandSpawn cps cmd (.opts o :: ss.map .str) =
          (optionsToArgs o none).map (fun oa => composeSpawn cps cmd (oa ++ ss))) := by
  constructor
  · intro cps cmd s0 ss
    simp [serviceCommandSpawn, optionsToArgs, optionsToArgsGo, map_jsArgToString_str]
  · intro cps cmd o ss
    cases h : optionsToArgs o none <;>
      simp [serviceCommandSpawn, h, Except.map, map_jsArgToString_str]

/-- C10: `exec` and `run` never forward the service name: in both overload
shapes the spawned argument vector is exactly the encoded option flags, the
`-T` short flag when `disablePseudoTty` is truthy, the command string and the
extra run arguments — the right-hand sides below do not depend on the service
argument `s` at all. -/
theorem execRun_omits_service_name :
    (∀ (cps : List String) (s c : String) (rs : List String),
        execLikeSpawn "exec" cps (.str s :: .str c :: rs.map .str) =
          .ok (composeSpawn cps "exec" ([c] ++ rs)))
    ∧ (∀ (cps : List String) (o : List (String × JsValue)) (s c : String) (rs : List String),
        execLikeSpawn "exec" cps (.opts o :: .str s :: .str c :: rs.map .str) =
          (optionsToArgs (jsDeleteKey "disablePseudoTty" o) none).map
            (fun oa => composeSpawn cps "exec"
              ((oa ++ if jsTruthy (jsLookup "disablePseudoTty" o) then ["-T"] else [])
                ++ ([c] ++ rs))))
    ∧ (∀ (cps : List String) (s c : String) (rs : List String),
        execLikeSpawn "run" cps (.str s :: .str c :: rs.map .str) =
          .ok (composeSpawn cps "run" ([c] ++ rs)))
    ∧ (∀ (cps : List String) (o : List (String × JsValue)) (s c : String) (rs : List String),
        execLikeSpawn "run" cps (.opts o :: .str s :: .str c :: rs.map .str) =
          (optionsToArgs (jsDeleteKey "disablePseudoTty" o) none).map
            (fun oa => composeSpawn cps "run"
              ((oa ++ if jsTruthy (jsLookup "disablePseudoTty" o) then ["-T"] else [])
                ++ ([c] ++ rs)))) := by
  refine ⟨fun cps s c rs => ?_, fun cps o s c rs => ?_,
          fun cps s c rs => ?_, fun cps o s c rs => ?_⟩
  · simp [execLikeSpawn, jsCmdOrEmpty, jsLookup, jsTruthy, jsDeleteKey,
          optionsToArgs, optionsToArgsGo, map_jsArgToString_str]
  · cases h : optionsToArgs (jsDeleteKey "disablePseudoTty" o) none <;>
      simp [execLikeSpawn, jsCmdOrEmpty, h, Except.map, map_jsArgToString_str]
  · simp [execLikeSpawn, jsCmdOrEmpty, jsLookup, jsTruthy, jsDeleteKey,
          optionsToArgs, optionsToArgsGo, map_jsArgToString_str]
  · cases h : optionsToArgs (jsDeleteKey "disablePseudoTty" o) none <;>
      simp [execLikeSpawn, jsCmdOrEmpty, h, Except.map, map_jsArgToString_str]

/-! Claim C2: the validation failures of flat-mapping option values. -/

/-- A sequence element the claim calls invalid inside a flat-mapping inner
value: a whitespace-containing string, or a mapping. -/
def badArrElem : JsValue → Bool
  | .vstr t => hasWhitespace t
  | .vobj _ => true
  | _ => false

/-- An inner value the claim calls invalid: a whitespace-containing string, or
a sequence with an invalid element. -/
def badInner : JsValue → Bool
  | .vstr s => hasWhitespace s
  | .varr es => es.any badArrElem
  | _ => false

/-- A flat mapping violating the claim's constraint: some inner key contains
whitespace or some inner value is invalid. -/
def claimBadFlatMap (m : List (String × JsValue)) : Bool :=
  m.any (fun e => hasWhitespace e.1 || badInner e.2)

theorem arrElemCheck_isSome_of_bad (es : List JsValue) (h : es.any badArrElem = true) :
    ∃ msg, arrElemCheck es = some msg := by
  induction es with
  | nil => simp at h
  | cons e rest ih =>
    cases e with
    | vstr s =>
      rcases hws : hasWhitespace s with _ | _
      · simp only [List.any_cons, badArrElem, hws, Bool.false_or] at h
        obtain ⟨msg, hmsg⟩ := ih h
        exact ⟨msg, by simp [arrElemCheck, hws, hmsg]⟩
      · exact ⟨msgArrElemWs, by simp [arrElemCheck, hws]⟩
    | varr xs => exact ⟨msgArrElemObj, rfl⟩
    | vobj m => exact ⟨msgArrElemObj, rfl⟩
    | vnull => exact ⟨msgArrElemObj, rfl⟩
    | vnum n =>
      simp only [List.any_cons, badArrElem, Bool.false_or] at h
      obtain ⟨msg, hmsg⟩ := ih h
      exact ⟨msg, by simp [arrElemCheck, hmsg]⟩
    | vbool b =>
      simp only [List.any_cons, badArrElem, Bool.false_or] at h
      obtain ⟨msg, hmsg⟩ := ih h
      exact ⟨msg, by simp [arrElemCheck, hmsg]⟩

theorem innerValueCheck_isSome_of_bad (v : JsValue) (h : badInner v = true) :
    ∃ msg, innerValueCheck v = some msg := by
  cases v with
  | vstr s =>
    have hws : hasWhitespace s = true := by simpa [badInner] using h
    exact ⟨msgValWs, by simp [innerValueCheck, hws]⟩
  | varr es =>
    obtain ⟨msg, hmsg⟩ := arrElemCheck_isSome_of_bad es (by simpa [badInner] using h)
    exact ⟨msg, by simpa [innerValueCheck] using hmsg⟩
  | vobj m => exact ⟨msgObjVal (.vobj m), rfl⟩
  | vbool b => simp [badInner] at h
  | vnum n => simp [badInner] at h
  | vnull => simp [badInner] at h

theorem encodeObjFields_error_of_bad (optKey : String) (m : List (String × JsValue))
    (h : claimBadFlatMap m = true) : ∃ e, encodeObjFields optKey m = .error e := by
  induction m with
  | nil => simp [claimBadFlatMap] at h
  | cons kv rest ih =>
    obtain ⟨k, v⟩ := kv
    rcases hk : hasWhitespace k with _ | _
    · rcases hv : innerValueCheck v with _ | msg
      · have hbv : badInner v = false := by
          rcases hbi : badInner v with _ | _
          · rfl
          · obtain ⟨msg, hmsg⟩ := innerValueCheck_isSome_of_bad v hbi
            rw [hmsg] at hv
            exact absurd hv (by simp)
        simp only [claimBadFlatMap, List.any_cons, hk, hbv, Bool.or_self,
          Bool.false_or] at h
        obtain ⟨e, he⟩ := ih h
        exact ⟨e, by simp [encodeObjFields, hk, hv, he]⟩
      · exact ⟨msg, by simp [encodeObjFields, hk, hv]⟩
    · exact ⟨msgKeyWs, by simp [encodeObjFields, hk]⟩

theorem optionsToArgsGo_error_of_bad (p : String) (opts : List (String × JsValue))
    (h : ∃ kv ∈ opts, ∃ m, kv.2 = JsValue.vobj m ∧ claimBadFlatMap m = true) :
    ∃ e, optionsToArgsGo p opts = .error e := by
  induction opts with
  | nil => simp at h
  | cons a rest ih =>
    obtain ⟨kv, hmem, m, hobj, hbad⟩ := h
    rcases List.mem_cons.mp hmem with heq | hrest
    · subst heq
      obtain ⟨a1, a2⟩ := kv
      simp only at hobj
      subst hobj
      obtain ⟨e, he⟩ := encodeObjFields_error_of_bad (flagOf p a1) m hbad
      exact ⟨e, by simp [optionsToArgsGo, encodeEntry, he]⟩
    · obtain ⟨e, he⟩ := ih ⟨kv, hrest, m, hobj, hbad⟩
      cases h1 : encodeEntry p a.1 a.2 with
      | error e1 => exact ⟨e1, by simp only [optionsToArgsGo]; rw [h1]⟩
      | ok ts => exact ⟨e, by simp only [optionsToArgsGo]; rw [h1, he]⟩

/-- C2: a configuration mapping containing a flat-mapping value with a
whitespace-containing inner key, a whitespace-containing string inner value,
or a sequence inner value holding a whitespace-containing string or a mapping,
makes the encoder throw a validation error (no token sequence is returned),
and the service-command dispatcher called with such an options mapping
produces no spawn call at all. -/
theorem optionsToArgs_flatMapping_whitespace_error
    (opts : List (String × JsValue)) (po : Option IOptionsToArgsParseOptions)
    (h : ∃ kv ∈ opts, ∃ m, kv.2 = JsValue.vobj m ∧ claimBadFlatMap m = true) :
    (∃ e, optionsToArgs opts po = .error e)
    ∧ (∀ (cps : List String) (cmd : String) (rest : List JsArg),
        ∃ e, serviceCommandSpawn cps cmd (.opts opts :: rest) = .error e) := by
  constructor
  · obtain ⟨e, he⟩ := optionsToArgsGo_error_of_bad
      (match po with | some p => p.pfx.getD "" | none => "") opts h
    exact ⟨e, by simpa [optionsToArgs] using he⟩
  · intro cps cmd rest
    obtain ⟨e, he⟩ := optionsToArgsGo_error_of_bad "" opts h
    refine ⟨e, ?_⟩
    simp only [serviceCommandSpawn, optionsToArgs]
    rw [he]

/-- Witness for C2 at the repository's own failing test inputs: the mapping
`{whatArg: {KEY: 'VALUE VALUE VALUE'}}` satisfies the claim's hypothesis, the
encoder throws on it, and the dispatcher spawns nothing for it. -/
theorem optionsToArgs_flatMapping_whitespace_error_witness :
    (∃ e, optionsToArgs [("whatArg", .vobj [("KEY", .vstr "VALUE VALUE VALUE")])] none
      = .error e)
    ∧ (∃ e, serviceCommandSpawn [] "build"
        [.opts [("whatArg", .vobj [("KEY", .vstr "VALUE VALUE VALUE")])]] = .error e) := by
  have hbad : ∃ kv ∈ ([("whatArg", JsValue.vobj [("KEY", JsValue.vstr "VALUE VALUE VALUE")])] :
      List (String × JsValue)), ∃ m, kv.2 = JsValue.vobj m ∧ claimBadFlatMap m = true :=
    ⟨_, List.mem_cons_self _ _, [("KEY", JsValue.vstr "VALUE VALUE VALUE")], rfl, by decide⟩
  have h := optionsToArgs_flatMapping_whitespace_error _ none hbad
  exact ⟨h.1, h.2 [] "build" []⟩

/-! Claim C4: the chunk sequence `"ab"`, `"c\nde"`, `"f\n"` through the line
splitter. -/

/-- The claim's chunk sequence. -/
def lineClaimChunks : List (List Char) := ["ab".data, "c\nde".data, "f\n".data]

/-- On a remainder still starting with the unconsumed newline the do-while
never returns: each iteration emits the empty buffered line and leaves the
remainder unchanged. -/
theorem lineChunkLoop_stuck_on_newline (tail : List Char) :
    ∀ fuel, lineChunkLoop fuel [] ('\n' :: tail) = (List.replicate fuel [], none) := by
  intro fuel
  induction fuel with
  | zero => rfl
  | succ f ih => simp [lineChunkLoop, jsIndexOfNl, ih, List.replicate_succ]

/-- C4 (amended): feeding `"ab"`, `"c\nde"`, `"f\n"` into the splitter emits
`"abc"` and then, however many iterations the do-while is granted, only empty
units without ever returning — `substr(newLineIndex)` keeps the newline, so
the handler loops and the chunk `"f\n"` is never processed; the claimed units
`"abcde"` and `"f"` are never produced. -/
theorem lineReadFeed_claim_chunks_diverge :
    ∀ fuel, lineReadFeed fuel [] lineClaimChunks =
      (match fuel with
       | 0 => ([], none)
       | f + 1 => ("abc".data :: List.replicate f [], none)) := by
  intro fuel
  cases fuel with
  | zero => rfl
  | succ f =>
    have h1 : lineChunkLoop (f + 1) [] "ab".data = ([], some "ab".data) := by
      simp [lineChunkLoop, jsIndexOfNl]
    have h2 : lineChunkLoop (f + 1) "ab".data "c\nde".data =
        ("abc".data :: List.replicate f [], none) := by
      have := lineChunkLoop_stuck_on_newline "de".data f
      simp [lineChunkLoop, jsIndexOfNl, this]
    simp [lineReadFeed, lineClaimChunks, h1, h2]

/-- Counterexample for C4: with five loop iterations the splitter has emitted
`"abc"` and four empty units, and the loop has not returned — not the claimed
units `"abcde"` then `"f"`. -/
theorem lineReadFeed_claim_chunks_counterexample :
    lineReadFeed 5 [] lineClaimChunks = (["abc".data, [], [], [], []], none) := by rfl

/-! Claim C5: the environment parser on output without the sentinel. -/

/-- C5: whenever no line of the captured output contains the sentinel
`DOCKER_MACHINE_NAME`, the parser fails (in the source, `lines.find` yields
`undefined` and `test.indexOf` throws, rejecting the promise) — it never
returns a mapping, empty or otherwise; and the whole env query surfaces an
error to the caller for every process fate. -/
theorem machineEnv_missing_sentinel_fails (name out : String)
    (h : ∀ line ∈ splitLines out.data, jsContains line dockerMachineNameVar.data = false) :
    (∃ e, parseMachineEnvOut name out = .error e)
    ∧ (∀ fate : ProcessFate, ∃ e, dockerMachineEnv name fate out = .error e) := by
  have hfind : (splitLines out.data).find?
      (fun line => jsContains line dockerMachineNameVar.data) = none := by
    rw [List.find?_eq_none]
    intro line hline
    simp [h line hline]
  have hparse : parseMachineEnvOut name out =
      .error "TypeError: Cannot read property indexOf of undefined" := by
    simp only [parseMachineEnvOut]
    rw [hfind]
  refine ⟨⟨_, hparse⟩, fun fate => ?_⟩
  cases hc : completionSignal "docker-machine" fate with
  | error e => exact ⟨e, by simp [dockerMachineEnv, hc]⟩
  | ok u =>
    exact ⟨"TypeError: Cannot read property indexOf of undefined",
      by simp [dockerMachineEnv, hc, hparse]⟩

/-- Witness for C5: concrete sentinel-free output makes the parser and the
whole query fail. -/
theorem machineEnv_missing_sentinel_fails_witness :
    (∀ line ∈ splitLines "some garbage output".data,
      jsContains line dockerMachineNameVar.data = false)
    ∧ (∃ e, parseMachineEnvOut "test-machine" "some garbage output" = .error e)
    ∧ (∃ e, dockerMachineEnv "test-machine" (.closeEvent (some 0) none)
        "some garbage output" = .error e) := by
  have h : ∀ line ∈ splitLines "some garbage output".data,
      jsContains line dockerMachineNameVar.data = false := by decide
  have hmain := machineEnv_missing_sentinel_fails "test-machine" "some garbage output" h
  exact ⟨h, hmain.1, hmain.2 _⟩

/-! Claim C7: the JSON event decoder. -/

/-- The claim's well-formed event line. -/
def eventClaimLine : List Char :=
  "\x7b\"time\":\"t\",\"type\":\"container\",\"action\":\"create\",\"id\":\"1\",\"service\":\"db\"\x7d".data

/-- C7 (amended): a well-formed event line yields exactly one record with the
matching fields delivered to subscribers — after which the handler throws on
the empty remainder left by the unconsumed newline; a malformed line makes
`JSON.parse` throw with no record delivered, the exception escaping the `data`
handler instead of reaching the event stream's error channel, which carries
exactly the process completion failures. -/
theorem events_decoder_behaviour :
    eventsChunkLoop 3 [] (eventClaimLine ++ ['\n']) =
      ([[("time", "t"), ("type", "container"), ("action", "create"),
         ("id", "1"), ("service", "db")]], .thrownParse [])
    ∧ eventsChunkLoop 3 [] "notjson\n".data = ([], .thrownParse "notjson".data)
    ∧ (∀ (fate : ProcessFate) (e : String),
        eventsTerminal fate = .erroredWith e ↔
          completionSignal "docker-compose" fate = .error e) := by
  refine ⟨by rfl, by rfl, fun fate e => ?_⟩
  cases hc : completionSignal "docker-compose" fate with
  | error e2 => simp [eventsTerminal, hc]
  | ok u => simp [eventsTerminal, hc]

/-- Counterexample for C7: the malformed line `notjson` delivers no record and
ends the handler with a thrown parse exception, while the stream's terminal
channel for a cleanly exiting subprocess stays a normal completion — no error
ever reaches the event stream's error channel for a malformed line. -/
theorem events_malformed_line_no_stream_error :
    eventsChunkLoop 3 [] "notjson\n".data = ([], .thrownParse "notjson".data)
    ∧ eventsTerminal (.closeEvent (some 0) none) = .completedNormally := by
  exact ⟨rfl, rfl⟩

/-! Claim C8: the host handle is updated atomically by env queries. -/

/-- C8: a successful refresh stores exactly the newly parsed mapping in the
handle, a failed refresh leaves the handle unchanged while the failure
propagates, and `get` constructs a handle only from a successful query — the
handle is never partially updated. -/
theorem refreshEnv_atomic_update :
    (∀ (m : MachineHandle) (fate : ProcessFate) (out : String) (e : List (String × String)),
        (refreshEnvRun m fate out).1 = .ok e →
          (refreshEnvRun m fate out).2 = { m with env := e })
    ∧ (∀ (m : MachineHandle) (fate : ProcessFate) (out err : String),
        (refreshEnvRun m fate out).1 = .error err → (refreshEnvRun m fate out).2 = m)
    ∧ (∀ (name : String) (fate : ProcessFate) (out err : String),
        dockerMachineEnv name fate out = .error err →
          machineGet name fate out = .error err)
    ∧ (∀ (name : String) (fate : ProcessFate) (out : String) (e : List (String × String)),
        dockerMachineEnv name fate out = .ok e →
          machineGet name fate out = .ok { name := name, env := e }) := by
  refine ⟨fun m fate out e h => ?_, fun m fate out err h => ?_,
          fun name fate out err h => ?_, fun name fate out e h => ?_⟩
  · cases hq : dockerMachineEnv m.name fate out <;>
      simp_all [refreshEnvRun, refreshEnvUpdate, hq]
  · cases hq : dockerMachineEnv m.name fate out <;>
      simp_all [refreshEnvRun, refreshEnvUpdate, hq]
  · simp [machineGet, h]
  · simp [machineGet, h]

/-- Witness for C8 at concrete queries: a successful refresh against real
export-style output replaces the stored mapping, and a spawn-failure refresh
leaves the handle exactly as it was. -/
theorem refreshEnv_atomic_update_witness :
    (refreshEnvRun ⟨"test-machine", [("OLD", "old")]⟩ (.closeEvent (some 0) none)
        "export DOCKER_MACHINE_NAME=\"test-machine\"\nexport DOCKER_TLS_VERIFY=\"1\"\n").2
      = ⟨"test-machine",
          [("DOCKER_MACHINE_NAME", "test-machine"), ("DOCKER_TLS_VERIFY", "1")]⟩
    ∧ (refreshEnvRun ⟨"test-machine", [("OLD", "old")]⟩
        (.errorEvent "spawn docker-machine ENOENT") "").2
      = ⟨"test-machine", [("OLD", "old")]⟩ := by
  exact ⟨refreshEnv_atomic_update.1 _ _ _ _ (by rfl),
         refreshEnv_atomic_update.2.1 _ _ _ "spawn docker-machine ENOENT" (by rfl)⟩

end DockerToolbox
